import Mathlib

/-!
Shallow embedding of the chunk voxel storage and mesh-generation core of
the `voxel-engine` repository (Rust).  Two chunk variants appear in the
source: `src/chunk.rs` (compile-time size 16) and `src/main.rs` (runtime
per-chunk size).  Both are embedded below; the `bevy::math::Vec3` position
and the `f32` scalars of the placement computation are modelled over `ℚ`,
which is exact for every value the program computes with them (small
integers and halves).  Rust `Vec<Voxel>` becomes `List Voxel`;
`Vec::get` (fallible read) becomes `List.getElem?`; the bounds-guarded
index assignment in `set` becomes `List.set` under the same guard.
-/

namespace VoxelEngine

/-- Model of `bevy::math::Vec3` as used by the program: a 3-component
vector.  Components are `ℚ`; all concrete component values the program
stores or multiplies are exactly representable in `f32`, so `f32`
arithmetic on them is exact and agrees with `ℚ`. -/
structure Vec3 where
  x : ℚ
  y : ℚ
  z : ℚ
deriving DecidableEq, Repr

/-! ## The `src/chunk.rs` variant: compile-time `SIZE = 16` -/

namespace ChunkRs

/-- `voxel.rs`: `struct Voxel { id: u8 }`.  Only the literals 0 and 1 are
ever stored; no arithmetic is performed on `id`, so `Nat` is faithful. -/
structure Voxel where
  id : Nat
deriving DecidableEq, Repr

/-- `chunk.rs`: `struct Chunk { voxels: Vec<Voxel>, position: Vec3 }`. -/
structure Chunk where
  voxels : List Voxel
  position : Vec3
deriving DecidableEq, Repr

/-- `Chunk::SIZE = 16`. -/
def Chunk.SIZE : Nat := 16

/-- `Chunk::new`: storage of `SIZE³` empty (id 0) voxels. -/
def Chunk.new (position : Vec3) : Chunk :=
  { voxels := List.replicate (Chunk.SIZE * Chunk.SIZE * Chunk.SIZE) ⟨0⟩
    position := position }

/-- `Chunk::linearize(x, y, z) = z*SIZE*SIZE + y*SIZE + x`. -/
def Chunk.linearize (x y z : Nat) : Nat :=
  z * Chunk.SIZE * Chunk.SIZE + y * Chunk.SIZE + x

/-- `Chunk::get`: `self.voxels.get(Self::linearize(x, y, z))` — the only
bounds check is the fallible `Vec::get` on the linearized index. -/
def Chunk.get (c : Chunk) (x y z : Nat) : Option Voxel :=
  c.voxels[Chunk.linearize x y z]?

/-- `Chunk::set`: guarded component-wise (`x < SIZE && y < SIZE && z < SIZE`),
then `self.voxels[i] = value`.  Under the guard the index is in bounds for
every chunk reachable from `new` (proved below), so the Rust indexed write
cannot panic and `List.set` models it exactly. -/
def Chunk.set (c : Chunk) (x y z : Nat) (value : Voxel) : Chunk :=
  if x < Chunk.SIZE ∧ y < Chunk.SIZE ∧ z < Chunk.SIZE then
    { c with voxels := c.voxels.set (Chunk.linearize x y z) value }
  else c

end ChunkRs

/-! ## The `src/main.rs` variant: per-chunk runtime `size` -/

namespace MainRs

/-- `main.rs`: `struct Voxel { id: u8 }`. -/
structure Voxel where
  id : Nat
deriving DecidableEq, Repr

/-- `Voxel::SIZE: f32 = 1.0` — the voxel unit size used in placement. -/
def Voxel.SIZE : ℚ := 1

/-- `main.rs`: `struct Chunk { voxels: Vec<Voxel>, position: Vec3, size: usize }`. -/
structure Chunk where
  voxels : List Voxel
  position : Vec3
  size : Nat
deriving DecidableEq, Repr

/-- `Chunk::new(position, size)`: storage of `size³` empty (id 0) voxels. -/
def Chunk.new (position : Vec3) (size : Nat) : Chunk :=
  { voxels := List.replicate (size * size * size) ⟨0⟩
    position := position
    size := size }

/-- `Chunk::flatten_cartesian(x, y, z) = z*size*size + y*size + x`. -/
def Chunk.flatten_cartesian (c : Chunk) (x y z : Nat) : Nat :=
  z * c.size * c.size + y * c.size + x

/-- `Chunk::get`: `self.voxels.get(self.flatten_cartesian(x, y, z))`. -/
def Chunk.get (c : Chunk) (x y z : Nat) : Option Voxel :=
  c.voxels[c.flatten_cartesian x y z]?

/-- `Chunk::set`: component-wise guard, then indexed write. -/
def Chunk.set (c : Chunk) (x y z : Nat) (value : Voxel) : Chunk :=
  if x < c.size ∧ y < c.size ∧ z < c.size then
    { c with voxels := c.voxels.set (c.flatten_cartesian x y z) value }
  else c

/-- Storage invariant: the voxel sequence has exactly `size³` entries.
Established by `new`, preserved by `set`. -/
def Chunk.wf (c : Chunk) : Prop :=
  c.voxels.length = c.size * c.size * c.size

instance (c : Chunk) : Decidable c.wf := by
  unfold Chunk.wf; infer_instance

/-! ### `render_chunks` (scene assembler), per-chunk part

For one chunk, `render_chunks` iterates `x`, then `y`, then `z`, each over
`0..size`.  If `get` is `None` it `return`s from the per-chunk closure,
abandoning the rest of this chunk's cells; otherwise it spawns an instance
at the transform below (for every iterated cell, occupied or not). -/

/-- The world translation `Transform::from_xyz(...)` computed for cell
`(x, y, z)` of chunk `c` in `render_chunks`. -/
def renderTransform (c : Chunk) (x y z : Nat) : ℚ × ℚ × ℚ :=
  (Voxel.SIZE * (x : ℚ) + Voxel.SIZE * (c.size : ℚ) * c.position.x,
   Voxel.SIZE * (y : ℚ),
   Voxel.SIZE * (z : ℚ) + Voxel.SIZE * (c.size : ℚ) * c.position.z)

/-- The cell coordinates in the order the triple `for` loop visits them:
`x` outermost, then `y`, `z` innermost. -/
def chunkCoords (n : Nat) : List (Nat × Nat × Nat) :=
  (List.range n).flatMap fun x =>
    (List.range n).flatMap fun y =>
      (List.range n).map fun z => (x, y, z)

/-- The loop body of `render_chunks` over a list of cell coordinates: on a
`None` read it aborts (the Rust `return` from the per-chunk closure),
otherwise it emits the transform and continues. -/
def renderLoop (c : Chunk) : List (Nat × Nat × Nat) → List (ℚ × ℚ × ℚ)
  | [] => []
  | (x, y, z) :: rest =>
    match c.get x y z with
    | none => []
    | some _ => renderTransform c x y z :: renderLoop c rest

/-- The instance translations `render_chunks` spawns for one chunk. -/
def render_chunk (c : Chunk) : List (ℚ × ℚ × ℚ) :=
  renderLoop c (chunkCoords c.size)

/-! ### `generate_cube_mesh` -/

/-- The four parallel tables inserted into the `Mesh` by
`generate_cube_mesh`: 24 positions, 24 normals, 24 UV pairs, 36 `u32`
indices (values all tiny, so `Nat` is faithful). -/
structure MeshData where
  positions : List (ℚ × ℚ × ℚ)
  normals : List (ℚ × ℚ × ℚ)
  uvs : List (ℚ × ℚ)
  indices : List Nat
deriving DecidableEq, Repr

/-- `generate_cube_mesh()`: the literal vertex/UV/normal/index tables of
`main.rs`, face order top(+y), bottom(−y), right(+x), left(−x), back(+z),
forward(−z). -/
def generate_cube_mesh : MeshData where
  positions :=
    [(-0.5, 0.5, -0.5), (0.5, 0.5, -0.5), (0.5, 0.5, 0.5), (-0.5, 0.5, 0.5),
     (-0.5, -0.5, -0.5), (0.5, -0.5, -0.5), (0.5, -0.5, 0.5), (-0.5, -0.5, 0.5),
     (0.5, -0.5, -0.5), (0.5, -0.5, 0.5), (0.5, 0.5, 0.5), (0.5, 0.5, -0.5),
     (-0.5, -0.5, -0.5), (-0.5, -0.5, 0.5), (-0.5, 0.5, 0.5), (-0.5, 0.5, -0.5),
     (-0.5, -0.5, 0.5), (-0.5, 0.5, 0.5), (0.5, 0.5, 0.5), (0.5, -0.5, 0.5),
     (-0.5, -0.5, -0.5), (-0.5, 0.5, -0.5), (0.5, 0.5, -0.5), (0.5, -0.5, -0.5)]
  normals :=
    [(0, 1, 0), (0, 1, 0), (0, 1, 0), (0, 1, 0),
     (0, -1, 0), (0, -1, 0), (0, -1, 0), (0, -1, 0),
     (1, 0, 0), (1, 0, 0), (1, 0, 0), (1, 0, 0),
     (-1, 0, 0), (-1, 0, 0), (-1, 0, 0), (-1, 0, 0),
     (0, 0, 1), (0, 0, 1), (0, 0, 1), (0, 0, 1),
     (0, 0, -1), (0, 0, -1), (0, 0, -1), (0, 0, -1)]
  uvs :=
    [(0, 0.2), (0, 0), (1, 0), (1, 0.2),
     (0, 0.45), (0, 0.25), (1, 0.25), (1, 0.45),
     (1, 0.45), (0, 0.45), (0, 0.2), (1, 0.2),
     (1, 0.45), (0, 0.45), (0, 0.2), (1, 0.2),
     (0, 0.45), (0, 0.2), (1, 0.2), (1, 0.45),
     (0, 0.45), (0, 0.2), (1, 0.2), (1, 0.45)]
  indices :=
    [0, 3, 1, 1, 3, 2,
     4, 5, 7, 5, 6, 7,
     8, 11, 9, 9, 11, 10,
     12, 13, 15, 13, 14, 15,
     16, 19, 17, 17, 19, 18,
     20, 21, 23, 21, 22, 23]

/-- Componentwise difference of 3-vectors (for triangle edge vectors). -/
def vsub (a b : ℚ × ℚ × ℚ) : ℚ × ℚ × ℚ :=
  (a.1 - b.1, a.2.1 - b.2.1, a.2.2 - b.2.2)

/-- Cross product of 3-vectors. -/
def cross (a b : ℚ × ℚ × ℚ) : ℚ × ℚ × ℚ :=
  (a.2.1 * b.2.2 - a.2.2 * b.2.1,
   a.2.2 * b.1 - a.1 * b.2.2,
   a.1 * b.2.1 - a.2.1 * b.1)

/-- Dot product of 3-vectors. -/
def dot (a b : ℚ × ℚ × ℚ) : ℚ :=
  a.1 * b.1 + a.2.1 * b.2.1 + a.2.2 * b.2.2

/-- Triangle `t` (0-based, three consecutive indices) winds outward: the
cross product of its edge vectors has positive dot product with the normal
of the face it belongs to (face `t / 2`, whose four vertices all carry the
same normal). -/
def triangleOutward (m : MeshData) (t : Nat) : Prop :=
  let i0 := m.indices.getD (3 * t) 0
  let i1 := m.indices.getD (3 * t + 1) 0
  let i2 := m.indices.getD (3 * t + 2) 0
  let p0 := m.positions.getD i0 (0, 0, 0)
  let p1 := m.positions.getD i1 (0, 0, 0)
  let p2 := m.positions.getD i2 (0, 0, 0)
  let n := m.normals.getD (4 * (t / 2)) (0, 0, 0)
  0 < dot (cross (vsub p1 p0) (vsub p2 p0)) n

/-- All 12 triangles of the mesh wind outward. -/
def outwardWinding (m : MeshData) : Prop :=
  ∀ t < 12, triangleOutward m t

end MainRs

end VoxelEngine

/-! ## Helper lemmas -/

namespace VoxelEngine.MainRs

/-- The linearized index of an in-range coordinate triple is below `s³`. -/
theorem flatten_lt_of_lt {s x y z : Nat} (hx : x < s) (hy : y < s) (hz : z < s) :
    z * s * s + y * s + x < s * s * s := by
  have hz1 : (z + 1) * s ≤ s * s :=
    Nat.mul_le_mul (by omega) (le_refl s)
  have e : (z + 1) * s = z * s + s := by ring
  have hle : z * s + y + 1 ≤ s * s := by omega
  have e2 : (z * s + y + 1) * s = z * s * s + y * s + s := by ring
  have h1 : z * s * s + y * s + x < (z * s + y + 1) * s := by omega
  calc z * s * s + y * s + x < (z * s + y + 1) * s := h1
    _ ≤ s * s * s := Nat.mul_le_mul hle (le_refl s)

/-- First digit of the base-`s` decomposition of the linearized index. -/
theorem flatten_mod {s : Nat} (x y z : Nat) (hx : x < s) :
    (z * s * s + y * s + x) % s = x := by
  have e : z * s * s + y * s + x = x + (y + z * s) * s := by ring
  rw [e, Nat.add_mul_mod_self_right, Nat.mod_eq_of_lt hx]

/-- Quotient of the linearized index by `s`. -/
theorem flatten_div {s : Nat} (x y z : Nat) (hx : x < s) :
    (z * s * s + y * s + x) / s = y + z * s := by
  have hs : 0 < s := by omega
  have e : z * s * s + y * s + x = x + (y + z * s) * s := by ring
  rw [e, Nat.add_mul_div_right _ _ hs, Nat.div_eq_of_lt hx, Nat.zero_add]

/-- Second digit. -/
theorem flatten_div_mod {s : Nat} (x y z : Nat) (hx : x < s) (hy : y < s) :
    (z * s * s + y * s + x) / s % s = y := by
  rw [flatten_div x y z hx, Nat.add_mul_mod_self_right, Nat.mod_eq_of_lt hy]

/-- Third digit. -/
theorem flatten_div_div {s : Nat} (x y z : Nat) (hx : x < s) (hy : y < s) :
    (z * s * s + y * s + x) / s / s = z := by
  have hs : 0 < s := by omega
  rw [flatten_div x y z hx, Nat.add_mul_div_right _ _ hs, Nat.div_eq_of_lt hy,
    Nat.zero_add]

/-- For a well-formed chunk, in-range coordinates linearize below the
storage length: the indexed write in `set` is in bounds. -/
theorem flatten_lt_length {c : Chunk} (h : c.wf) {x y z : Nat}
    (hx : x < c.size) (hy : y < c.size) (hz : z < c.size) :
    c.flatten_cartesian x y z < c.voxels.length := by
  unfold Chunk.wf at h
  unfold Chunk.flatten_cartesian
  rw [h]
  exact flatten_lt_of_lt hx hy hz

/-- `new` establishes the storage invariant. -/
theorem wf_new (p : Vec3) (n : Nat) : (Chunk.new p n).wf := by
  simp [Chunk.new, Chunk.wf]

/-- `set` preserves the storage invariant. -/
theorem wf_set {c : Chunk} (h : c.wf) (x y z : Nat) (v : Voxel) :
    (c.set x y z v).wf := by
  unfold Chunk.set
  split
  · simpa [Chunk.wf] using h
  · exact h

/-- `set` never touches `position`. -/
theorem set_position (c : Chunk) (x y z : Nat) (v : Voxel) :
    (c.set x y z v).position = c.position := by
  unfold Chunk.set
  split <;> rfl

/-- `set` never touches `size`. -/
theorem set_size (c : Chunk) (x y z : Nat) (v : Voxel) :
    (c.set x y z v).size = c.size := by
  unfold Chunk.set
  split <;> rfl

/-- `set` never changes the storage length. -/
theorem set_length (c : Chunk) (x y z : Nat) (v : Voxel) :
    (c.set x y z v).voxels.length = c.voxels.length := by
  unfold Chunk.set
  split <;> simp

/-- Reading back the cell just written (in range, well-formed chunk). -/
theorem get_set_self {c : Chunk} (h : c.wf) {x y z : Nat}
    (hx : x < c.size) (hy : y < c.size) (hz : z < c.size) (v : Voxel) :
    (c.set x y z v).get x y z = some v := by
  unfold Chunk.get Chunk.set
  rw [if_pos ⟨hx, hy, hz⟩]
  simp only [Chunk.flatten_cartesian]
  exact List.getElem?_set_eq_of_lt v (flatten_lt_length h hx hy hz)

/-- `set` in range leaves every other storage index unchanged. -/
theorem set_get_ne {c : Chunk} {x y z : Nat} (v : Voxel) (i : Nat)
    (hi : i ≠ c.flatten_cartesian x y z) :
    (c.set x y z v).voxels[i]? = c.voxels[i]? := by
  unfold Chunk.set
  split
  · exact List.getElem?_set_ne (fun e => hi e.symm)
  · rfl

/-- `get` on a fresh chunk at an in-range index yields the empty voxel. -/
theorem get_new {p : Vec3} {n x y z : Nat}
    (hx : x < n) (hy : y < n) (hz : z < n) :
    (Chunk.new p n).get x y z = some ⟨0⟩ := by
  unfold Chunk.new Chunk.get Chunk.flatten_cartesian
  simp only
  rw [List.getElem?_replicate]
  simp [flatten_lt_of_lt hx hy hz]

/-- Every coordinate the render loop visits is in range. -/
theorem chunkCoords_bounds {n : Nat} :
    ∀ p ∈ chunkCoords n, p.1 < n ∧ p.2.1 < n ∧ p.2.2 < n := by
  intro p hp
  unfold chunkCoords at hp
  simp only [List.mem_flatMap, List.mem_map, List.mem_range] at hp
  obtain ⟨x, hx, y, hy, z, hz, rfl⟩ := hp
  exact ⟨hx, hy, hz⟩

/-- Every in-range coordinate is visited by the render loop. -/
theorem mem_chunkCoords {n x y z : Nat} (hx : x < n) (hy : y < n) (hz : z < n) :
    (x, y, z) ∈ chunkCoords n := by
  unfold chunkCoords
  simp only [List.mem_flatMap, List.mem_map, List.mem_range]
  exact ⟨x, hx, y, hy, z, hz, rfl⟩

/-- For a well-formed chunk, `get` succeeds on in-range coordinates. -/
theorem get_isSome {c : Chunk} (h : c.wf) {x y z : Nat}
    (hx : x < c.size) (hy : y < c.size) (hz : z < c.size) :
    (c.get x y z).isSome := by
  unfold Chunk.get
  rw [List.getElem?_eq_getElem (flatten_lt_length h hx hy hz)]
  rfl

/-- When every visited cell reads back `some`, the loop never aborts: it
emits exactly one transform per visited cell. -/
theorem renderLoop_eq_map {c : Chunk} {l : List (Nat × Nat × Nat)}
    (h : ∀ p ∈ l, (c.get p.1 p.2.1 p.2.2).isSome) :
    renderLoop c l = l.map fun p => renderTransform c p.1 p.2.1 p.2.2 := by
  induction l with
  | nil => rfl
  | cons p rest ih =>
    obtain ⟨x, y, z⟩ := p
    have h1 := h (x, y, z) (List.mem_cons_self _ _)
    match hg : c.get x y z with
    | none => rw [hg] at h1; simp at h1
    | some v =>
      rw [renderLoop, hg, List.map_cons]
      exact congrArg _ (ih fun q hq => h q (List.mem_cons_of_mem _ hq))

/-- Componentwise injectivity of the linearization (only the `x`/`y`
bounds are needed; the `z` digit is forced). -/
theorem flatten_inj {s x y z x' y' z' : Nat}
    (hx : x < s) (hy : y < s) (hx' : x' < s) (hy' : y' < s)
    (e : z * s * s + y * s + x = z' * s * s + y' * s + x') :
    x = x' ∧ y = y' ∧ z = z' := by
  have m1 := flatten_mod x y z hx
  have m2 := flatten_mod x' y' z' hx'
  rw [e] at m1
  have ex : x = x' := by omega
  have d1 := flatten_div_mod x y z hx hy
  have d2 := flatten_div_mod x' y' z' hx' hy'
  rw [e] at d1
  have ey : y = y' := by omega
  have t1 := flatten_div_div x y z hx hy
  have t2 := flatten_div_div x' y' z' hx' hy'
  rw [e] at t1
  have ez : z = z' := by omega
  exact ⟨ex, ey, ez⟩

end VoxelEngine.MainRs

/-! ## The claims -/

namespace VoxelEngine.MainRs

/-- C1 (counterexample): the spec says any component `≥ size` makes `get`
return "no value", but on a size-2 chunk `get(2, 0, 0)` — component `2 ≥
size` — returns `some` (the voxel stored at aliased index 2), and on the
fixed size-16 variant `get(16, 0, 0)` likewise returns `some`. -/
theorem get_out_of_range_some_counterexample :
    (Chunk.new ⟨0, 0, 0⟩ 2).size ≤ 2
    ∧ (Chunk.new ⟨0, 0, 0⟩ 2).get 2 0 0 = some ⟨0⟩
    ∧ (ChunkRs.Chunk.new ⟨0, 0, 0⟩).get 16 0 0 = some ⟨0⟩ := by
  refine ⟨by decide, by decide, ?_⟩
  unfold ChunkRs.Chunk.get ChunkRs.Chunk.new ChunkRs.Chunk.linearize
  rw [List.getElem?_replicate]
  norm_num [ChunkRs.Chunk.SIZE]

/-- C1 (amended): `get(x, y, z)` returns "no value" exactly when the
linearized index `z*size² + y*size + x` is `≥ size³` (the storage length of
a well-formed chunk); in both chunk variants a coordinate with a component
`≥ size` yields "no value" only in that case. -/
theorem get_none_iff_linear_overflow :
    (∀ (c : Chunk), c.wf → ∀ x y z,
      (c.get x y z = none ↔ c.size * c.size * c.size ≤ c.flatten_cartesian x y z))
    ∧ (∀ (c : ChunkRs.Chunk), c.voxels.length = 16 * 16 * 16 → ∀ x y z,
      (c.get x y z = none ↔ 16 * 16 * 16 ≤ ChunkRs.Chunk.linearize x y z)) := by
  constructor
  · intro c h x y z
    unfold Chunk.get
    rw [List.getElem?_eq_none_iff]
    unfold Chunk.wf at h
    rw [h]
  · intro c h x y z
    unfold ChunkRs.Chunk.get
    rw [List.getElem?_eq_none_iff, h]

/-- C1 (witness for the amended claim): concrete instantiation on a fresh
size-2 chunk at `(0, 0, 2)`. -/
theorem get_none_iff_linear_overflow_witness :
    (Chunk.new ⟨0, 0, 0⟩ 2).get 0 0 2 = none ↔
      2 * 2 * 2 ≤ (Chunk.new ⟨0, 0, 0⟩ 2).flatten_cartesian 0 0 2 :=
  get_none_iff_linear_overflow.1 (Chunk.new ⟨0, 0, 0⟩ 2) (by decide) 0 0 2

/-- C2: `get` bounds-checks only the linearized index: on a well-formed
chunk it returns `some` of the voxel stored at `z*size² + y*size + x`
whenever that index is `< size³` and `none` otherwise; for `size ≥ 2` the
out-of-range coordinate `(size, 0, 0)` reads back in-range cell
`(0, 1, 0)`'s voxel instead of `none`. -/
theorem get_checks_only_linearized_index (c : Chunk) (h : c.wf) (x y z : Nat) :
    (c.flatten_cartesian x y z < c.size * c.size * c.size →
      ∃ v, c.get x y z = some v
        ∧ c.voxels[c.flatten_cartesian x y z]? = some v)
    ∧ (c.size * c.size * c.size ≤ c.flatten_cartesian x y z →
      c.get x y z = none)
    ∧ (2 ≤ c.size →
      (c.get c.size 0 0).isSome ∧ c.get c.size 0 0 = c.get 0 1 0) := by
  unfold Chunk.wf at h
  refine ⟨?_, ?_, ?_⟩
  · intro hlt
    rw [← h] at hlt
    unfold Chunk.get
    exact ⟨c.voxels[c.flatten_cartesian x y z], List.getElem?_eq_getElem hlt,
      List.getElem?_eq_getElem hlt⟩
  · intro hge
    unfold Chunk.get
    rw [List.getElem?_eq_none_iff, h]
    exact hge
  · intro h2
    have e : c.flatten_cartesian c.size 0 0 = c.flatten_cartesian 0 1 0 := by
      unfold Chunk.flatten_cartesian
      ring
    have hss : 2 * c.size ≤ c.size * c.size :=
      Nat.mul_le_mul h2 (le_refl c.size)
    have hsss : c.size * c.size * 1 ≤ c.size * c.size * c.size :=
      Nat.mul_le_mul (le_refl (c.size * c.size)) (by omega)
    have hlt : c.flatten_cartesian c.size 0 0 < c.size * c.size * c.size := by
      unfold Chunk.flatten_cartesian
      have e1 : c.size * c.size * 1 = c.size * c.size := by ring
      omega
    rw [← h] at hlt
    constructor
    · unfold Chunk.get
      rw [List.getElem?_eq_getElem hlt]
      rfl
    · unfold Chunk.get
      rw [e]

/-- C2 (witness): concrete instantiation on a fresh size-2 chunk. -/
theorem get_checks_only_linearized_index_witness :
    ((Chunk.new ⟨0, 0, 0⟩ 2).flatten_cartesian 1 1 1 < 2 * 2 * 2 →
      ∃ v, (Chunk.new ⟨0, 0, 0⟩ 2).get 1 1 1 = some v
        ∧ (Chunk.new ⟨0, 0, 0⟩ 2).voxels[(Chunk.new ⟨0, 0, 0⟩ 2).flatten_cartesian 1 1 1]? = some v)
    ∧ (2 * 2 * 2 ≤ (Chunk.new ⟨0, 0, 0⟩ 2).flatten_cartesian 1 1 1 →
      (Chunk.new ⟨0, 0, 0⟩ 2).get 1 1 1 = none)
    ∧ (2 ≤ 2 →
      ((Chunk.new ⟨0, 0, 0⟩ 2).get 2 0 0).isSome
        ∧ (Chunk.new ⟨0, 0, 0⟩ 2).get 2 0 0 = (Chunk.new ⟨0, 0, 0⟩ 2).get 0 1 0) :=
  get_checks_only_linearized_index (Chunk.new ⟨0, 0, 0⟩ 2) (by decide) 1 1 1

/-- C3: an out-of-range `set` (any component `≥ size`) is a silent no-op
in both chunk variants: the resulting chunk — storage, position, size —
is the unchanged input. -/
theorem set_out_of_range_noop :
    (∀ (c : Chunk) (x y z : Nat) (v : Voxel),
      (c.size ≤ x ∨ c.size ≤ y ∨ c.size ≤ z) → c.set x y z v = c)
    ∧ (∀ (c : ChunkRs.Chunk) (x y z : Nat) (v : ChunkRs.Voxel),
      (ChunkRs.Chunk.SIZE ≤ x ∨ ChunkRs.Chunk.SIZE ≤ y ∨ ChunkRs.Chunk.SIZE ≤ z) →
      c.set x y z v = c) := by
  constructor
  · intro c x y z v hor
    unfold Chunk.set
    rw [if_neg (by omega)]
  · intro c x y z v hor
    unfold ChunkRs.Chunk.set
    rw [if_neg (by omega)]

/-- C3 (witness): a write at `x = size` leaves a fresh chunk unchanged, in
both variants. -/
theorem set_out_of_range_noop_witness :
    (Chunk.new ⟨0, 0, 0⟩ 1).set 1 0 0 ⟨7⟩ = Chunk.new ⟨0, 0, 0⟩ 1
    ∧ (ChunkRs.Chunk.new ⟨0, 0, 0⟩).set 16 0 0 ⟨7⟩ = ChunkRs.Chunk.new ⟨0, 0, 0⟩ :=
  ⟨set_out_of_range_noop.1 (Chunk.new ⟨0, 0, 0⟩ 1) 1 0 0 ⟨7⟩ (by decide),
   set_out_of_range_noop.2 (ChunkRs.Chunk.new ⟨0, 0, 0⟩) 16 0 0 ⟨7⟩ (by decide)⟩

/-- C4: for every chunk of positive size, the linearization
`(x, y, z) ↦ z*size² + y*size + x` maps the coordinate cube into
`[0, size³)`, is injective on it, and reaches every index in that range. -/
theorem flatten_cartesian_bijective (c : Chunk) (h : 0 < c.size) :
    (∀ x y z, x < c.size → y < c.size → z < c.size →
      c.flatten_cartesian x y z < c.size * c.size * c.size)
    ∧ (∀ x y z x' y' z', x < c.size → y < c.size → z < c.size →
        x' < c.size → y' < c.size → z' < c.size →
        c.flatten_cartesian x y z = c.flatten_cartesian x' y' z' →
        x = x' ∧ y = y' ∧ z = z')
    ∧ (∀ i, i < c.size * c.size * c.size →
        ∃ x y z, x < c.size ∧ y < c.size ∧ z < c.size
          ∧ c.flatten_cartesian x y z = i) := by
  refine ⟨?_, ?_, ?_⟩
  · intro x y z hx hy hz
    exact flatten_lt_of_lt hx hy hz
  · intro x y z x' y' z' hx hy _ hx' hy' _ e
    unfold Chunk.flatten_cartesian at e
    exact flatten_inj hx hy hx' hy' e
  · intro i hi
    refine ⟨i % c.size, i / c.size % c.size, i / c.size / c.size,
      Nat.mod_lt _ h, Nat.mod_lt _ h, ?_, ?_⟩
    · rw [Nat.div_div_eq_div_mul]
      refine (Nat.div_lt_iff_lt_mul (Nat.mul_pos h h)).mpr ?_
      calc i < c.size * c.size * c.size := hi
        _ = c.size * (c.size * c.size) := by ring
    · unfold Chunk.flatten_cartesian
      have e2 : c.size * (i / c.size / c.size) + (i / c.size) % c.size = i / c.size :=
        Nat.div_add_mod (i / c.size) c.size
      have e1 : c.size * (i / c.size) + i % c.size = i :=
        Nat.div_add_mod i c.size
      calc i / c.size / c.size * c.size * c.size + i / c.size % c.size * c.size + i % c.size
          = (c.size * (i / c.size / c.size) + (i / c.size) % c.size) * c.size + i % c.size := by
            ring
        _ = i / c.size * c.size + i % c.size := by rw [e2]
        _ = c.size * (i / c.size) + i % c.size := by ring
        _ = i := e1

/-- C4 (witness): concrete instantiation at size 2: the index of
`(1, 0, 1)` is in range, linearization is injective there, and index 5 is
reached. -/
theorem flatten_cartesian_bijective_witness :
    ((Chunk.new ⟨0, 0, 0⟩ 2).flatten_cartesian 1 0 1 < 2 * 2 * 2)
    ∧ (∃ x y z, x < 2 ∧ y < 2 ∧ z < 2
        ∧ (Chunk.new ⟨0, 0, 0⟩ 2).flatten_cartesian x y z = 5) :=
  ⟨(flatten_cartesian_bijective (Chunk.new ⟨0, 0, 0⟩ 2) (by decide)).1 1 0 1
      (by decide) (by decide) (by decide),
   (flatten_cartesian_bijective (Chunk.new ⟨0, 0, 0⟩ 2) (by decide)).2.2 5 (by decide)⟩

/-- C5: during `render_chunks`' placement iteration (all coordinates
`< size`), `get` always succeeds on a well-formed chunk, the indexed write
in `set` is in bounds under the same precondition (no panic), and hence
the early-return branch never fires: the loop emits exactly one transform
per visited cell. -/
theorem render_in_bounds_no_abort (c : Chunk) (h : c.wf) :
    (∀ x y z, x < c.size → y < c.size → z < c.size →
      (c.get x y z).isSome ∧ c.flatten_cartesian x y z < c.voxels.length)
    ∧ render_chunk c =
        (chunkCoords c.size).map fun p => renderTransform c p.1 p.2.1 p.2.2 := by
  constructor
  · intro x y z hx hy hz
    exact ⟨get_isSome h hx hy hz, flatten_lt_length h hx hy hz⟩
  · exact renderLoop_eq_map fun p hp => by
      obtain ⟨hx, hy, hz⟩ := chunkCoords_bounds p hp
      exact get_isSome h hx hy hz

/-- C5 (witness): concrete instantiation on a fresh size-1 chunk. -/
theorem render_in_bounds_no_abort_witness :
    (((Chunk.new ⟨0, 0, 0⟩ 1).get 0 0 0).isSome
      ∧ (Chunk.new ⟨0, 0, 0⟩ 1).flatten_cartesian 0 0 0 < (Chunk.new ⟨0, 0, 0⟩ 1).voxels.length)
    ∧ render_chunk (Chunk.new ⟨0, 0, 0⟩ 1) =
        (chunkCoords (Chunk.new ⟨0, 0, 0⟩ 1).size).map
          fun p => renderTransform (Chunk.new ⟨0, 0, 0⟩ 1) p.1 p.2.1 p.2.2 :=
  ⟨(render_in_bounds_no_abort (Chunk.new ⟨0, 0, 0⟩ 1) (by decide)).1 0 0 0
      (by decide) (by decide) (by decide),
   (render_in_bounds_no_abort (Chunk.new ⟨0, 0, 0⟩ 1) (by decide)).2⟩

/-- C6: an in-range `set` on a well-formed chunk stores exactly the given
voxel at that cell (read back by `get`), leaves every other storage index
unchanged — in particular every other valid cell — and preserves the
storage length, the position and the size. -/
theorem set_frame_effect (c : Chunk) (h : c.wf) (x y z : Nat)
    (hx : x < c.size) (hy : y < c.size) (hz : z < c.size) (v : Voxel) :
    (c.set x y z v).get x y z = some v
    ∧ (∀ i, i ≠ c.flatten_cartesian x y z →
        (c.set x y z v).voxels[i]? = c.voxels[i]?)
    ∧ (∀ x' y' z', x' < c.size → y' < c.size → z' < c.size →
        (x', y', z') ≠ (x, y, z) →
        (c.set x y z v).get x' y' z' = c.get x' y' z')
    ∧ (c.set x y z v).voxels.length = c.voxels.length
    ∧ (c.set x y z v).position = c.position
    ∧ (c.set x y z v).size = c.size := by
  refine ⟨get_set_self h hx hy hz v, fun i hi => set_get_ne v i hi, ?_,
    set_length c x y z v, set_position c x y z v, set_size c x y z v⟩
  intro x' y' z' hx' hy' hz' hne
  have hidx : c.flatten_cartesian x' y' z' ≠ c.flatten_cartesian x y z := by
    intro e
    unfold Chunk.flatten_cartesian at e
    obtain ⟨ex, ey, ez⟩ := flatten_inj hx' hy' hx hy e
    exact hne (by rw [ex, ey, ez])
  have hsz : (c.set x y z v).size = c.size := set_size c x y z v
  unfold Chunk.get
  have hfl : (c.set x y z v).flatten_cartesian x' y' z' = c.flatten_cartesian x' y' z' := by
    unfold Chunk.flatten_cartesian
    rw [hsz]
  rw [hfl]
  exact set_get_ne v _ hidx

/-- C6 (witness): concrete instantiation on a fresh size-2 chunk, writing
voxel id 3 at `(1, 1, 1)` (storage index 7). -/
theorem set_frame_effect_witness :
    ((Chunk.new ⟨0, 0, 0⟩ 2).set 1 1 1 ⟨3⟩).get 1 1 1 = some ⟨3⟩
    ∧ ((Chunk.new ⟨0, 0, 0⟩ 2).set 1 1 1 ⟨3⟩).voxels[0]? = (Chunk.new ⟨0, 0, 0⟩ 2).voxels[0]?
    ∧ ((Chunk.new ⟨0, 0, 0⟩ 2).set 1 1 1 ⟨3⟩).get 0 0 0 = (Chunk.new ⟨0, 0, 0⟩ 2).get 0 0 0
    ∧ ((Chunk.new ⟨0, 0, 0⟩ 2).set 1 1 1 ⟨3⟩).voxels.length = (Chunk.new ⟨0, 0, 0⟩ 2).voxels.length
    ∧ ((Chunk.new ⟨0, 0, 0⟩ 2).set 1 1 1 ⟨3⟩).position = (Chunk.new ⟨0, 0, 0⟩ 2).position
    ∧ ((Chunk.new ⟨0, 0, 0⟩ 2).set 1 1 1 ⟨3⟩).size = (Chunk.new ⟨0, 0, 0⟩ 2).size := by
  obtain ⟨h1, h2, h3, h4, h5, h6⟩ :=
    set_frame_effect (Chunk.new ⟨0, 0, 0⟩ 2) (by decide) 1 1 1
      (by decide) (by decide) (by decide) ⟨3⟩
  exact ⟨h1, h2 0 (by decide), h3 0 0 0 (by decide) (by decide) (by decide) (by decide),
    h4, h5, h6⟩

/-- C7: in both variants `new` unconditionally returns a chunk whose
storage has exactly `size³` entries (`16³` in the fixed variant), all
equal to the empty voxel (id 0); `get` at every valid coordinate of a
fresh chunk yields id 0. -/
theorem new_fills_empty :
    (∀ (p : Vec3) (n : Nat),
      (Chunk.new p n).voxels.length = n * n * n
      ∧ (∀ v ∈ (Chunk.new p n).voxels, v = ⟨0⟩)
      ∧ (∀ x y z, x < n → y < n → z < n → (Chunk.new p n).get x y z = some ⟨0⟩))
    ∧ (∀ (p : Vec3),
      (ChunkRs.Chunk.new p).voxels.length = 16 * 16 * 16
      ∧ (∀ v ∈ (ChunkRs.Chunk.new p).voxels, v = ⟨0⟩)
      ∧ (∀ x y z, x < 16 → y < 16 → z < 16 →
          (ChunkRs.Chunk.new p).get x y z = some ⟨0⟩)) := by
  constructor
  · intro p n
    refine ⟨by simp [Chunk.new], ?_, ?_⟩
    · intro v hv
      exact List.eq_of_mem_replicate hv
    · intro x y z hx hy hz
      exact get_new hx hy hz
  · intro p
    refine ⟨?_, ?_, ?_⟩
    · rw [show (ChunkRs.Chunk.new p).voxels
          = List.replicate (16 * 16 * 16) (⟨0⟩ : ChunkRs.Voxel) from rfl,
        List.length_replicate]
    · intro v hv
      exact List.eq_of_mem_replicate hv
    · intro x y z hx hy hz
      unfold ChunkRs.Chunk.new ChunkRs.Chunk.get ChunkRs.Chunk.linearize
      simp only
      rw [List.getElem?_replicate]
      have hlt : z * ChunkRs.Chunk.SIZE * ChunkRs.Chunk.SIZE + y * ChunkRs.Chunk.SIZE + x
          < ChunkRs.Chunk.SIZE * ChunkRs.Chunk.SIZE * ChunkRs.Chunk.SIZE := by
        unfold ChunkRs.Chunk.SIZE
        exact flatten_lt_of_lt hx hy hz
      simp [hlt]

/-- C7 (witness): concrete instantiation at size 2 and for the fixed
variant. -/
theorem new_fills_empty_witness :
    (Chunk.new ⟨0, 0, 0⟩ 2).voxels.length = 2 * 2 * 2
    ∧ (Chunk.new ⟨0, 0, 0⟩ 2).get 1 1 1 = some ⟨0⟩
    ∧ (ChunkRs.Chunk.new ⟨0, 0, 0⟩).voxels.length = 16 * 16 * 16
    ∧ (ChunkRs.Chunk.new ⟨0, 0, 0⟩).get 15 15 15 = some ⟨0⟩ :=
  ⟨(new_fills_empty.1 ⟨0, 0, 0⟩ 2).1,
   (new_fills_empty.1 ⟨0, 0, 0⟩ 2).2.2 1 1 1 (by decide) (by decide) (by decide),
   (new_fills_empty.2 ⟨0, 0, 0⟩).1,
   (new_fills_empty.2 ⟨0, 0, 0⟩).2.2 15 15 15 (by decide) (by decide) (by decide)⟩

/-- C8: for every occupied voxel at a valid coordinate of a well-formed
chunk, the scene assembler emits an instance at
`voxel_unit_size*local + voxel_unit_size*chunk_size*chunk.position` on the
X and Z axes and `voxel_unit_size*y` alone on Y; concretely, a size-16
chunk at grid position `(1, 0, 2)` with voxel `(3, 4, 5)` set to id 1
yields an instance at `(19, 4, 37)`. -/
theorem placement_world_coordinate :
    (∀ (c : Chunk), c.wf → ∀ (x y z : Nat) (v : Voxel),
      x < c.size → y < c.size → z < c.size →
      c.get x y z = some v → v.id ≠ 0 →
      (Voxel.SIZE * (x : ℚ) + Voxel.SIZE * (c.size : ℚ) * c.position.x,
       Voxel.SIZE * (y : ℚ),
       Voxel.SIZE * (z : ℚ) + Voxel.SIZE * (c.size : ℚ) * c.position.z)
        ∈ render_chunk c)
    ∧ ((19, 4, 37) : ℚ × ℚ × ℚ) ∈ render_chunk ((Chunk.new ⟨1, 0, 2⟩ 16).set 3 4 5 ⟨1⟩) := by
  have general : ∀ (c : Chunk), c.wf → ∀ (x y z : Nat) (v : Voxel),
      x < c.size → y < c.size → z < c.size →
      c.get x y z = some v → v.id ≠ 0 →
      (Voxel.SIZE * (x : ℚ) + Voxel.SIZE * (c.size : ℚ) * c.position.x,
       Voxel.SIZE * (y : ℚ),
       Voxel.SIZE * (z : ℚ) + Voxel.SIZE * (c.size : ℚ) * c.position.z)
        ∈ render_chunk c := by
    intro c h x y z v hx hy hz _ _
    have e : render_chunk c =
        (chunkCoords c.size).map fun p => renderTransform c p.1 p.2.1 p.2.2 :=
      renderLoop_eq_map fun p hp => by
        obtain ⟨hpx, hpy, hpz⟩ := chunkCoords_bounds p hp
        exact get_isSome h hpx hpy hpz
    rw [e]
    exact List.mem_map.mpr ⟨(x, y, z), mem_chunkCoords hx hy hz, rfl⟩
  refine ⟨general, ?_⟩
  have hwf : ((Chunk.new ⟨1, 0, 2⟩ 16).set 3 4 5 ⟨1⟩).wf :=
    wf_set (wf_new ⟨1, 0, 2⟩ 16) 3 4 5 ⟨1⟩
  have hsz : ((Chunk.new ⟨1, 0, 2⟩ 16).set 3 4 5 ⟨1⟩).size = 16 := by
    rw [set_size]; rfl
  have hget : ((Chunk.new ⟨1, 0, 2⟩ 16).set 3 4 5 ⟨1⟩).get 3 4 5 = some ⟨1⟩ :=
    get_set_self (wf_new ⟨1, 0, 2⟩ 16) (by decide) (by decide) (by decide) ⟨1⟩
  have hpos : ((Chunk.new ⟨1, 0, 2⟩ 16).set 3 4 5 ⟨1⟩).position = ⟨1, 0, 2⟩ := by
    rw [set_position]; rfl
  have h := general ((Chunk.new ⟨1, 0, 2⟩ 16).set 3 4 5 ⟨1⟩) hwf 3 4 5 ⟨1⟩
    (by rw [hsz]; omega) (by rw [hsz]; omega) (by rw [hsz]; omega) hget (by decide)
  rw [hsz, hpos] at h
  norm_num [Voxel.SIZE] at h
  exact h

/-- C8 (witness): concrete instantiation of the universally quantified
part on a size-1 chunk whose single voxel is occupied. -/
theorem placement_world_coordinate_witness :
    ((0 : ℚ), (0 : ℚ), (0 : ℚ)) ∈ render_chunk ((Chunk.new ⟨0, 0, 0⟩ 1).set 0 0 0 ⟨1⟩) := by
  have h := placement_world_coordinate.1 ((Chunk.new ⟨0, 0, 0⟩ 1).set 0 0 0 ⟨1⟩)
    (by decide) 0 0 0 ⟨1⟩ (by decide) (by decide) (by decide) (by decide) (by decide)
  have hsz : ((Chunk.new ⟨0, 0, 0⟩ 1).set 0 0 0 ⟨1⟩).size = 1 := by rw [set_size]; rfl
  have hpos : ((Chunk.new ⟨0, 0, 0⟩ 1).set 0 0 0 ⟨1⟩).position = ⟨0, 0, 0⟩ := by
    rw [set_position]; rfl
  rw [hsz, hpos] at h
  norm_num [Voxel.SIZE] at h
  exact h

/-- C9: the cube mesh generator is a pure function of no inputs — any two
results of calling it are element-wise equal in all four parallel tables
(positions, normals, UVs, indices), in content and order. -/
theorem generate_cube_mesh_deterministic (m₁ m₂ : MeshData)
    (h₁ : m₁ = generate_cube_mesh) (h₂ : m₂ = generate_cube_mesh) :
    m₁.positions = m₂.positions ∧ m₁.normals = m₂.normals
    ∧ m₁.uvs = m₂.uvs ∧ m₁.indices = m₂.indices := by
  subst h₁
  subst h₂
  exact ⟨rfl, rfl, rfl, rfl⟩

/-- C9 (witness): two calls of the generator compared directly. -/
theorem generate_cube_mesh_deterministic_witness :
    generate_cube_mesh.positions = generate_cube_mesh.positions
    ∧ generate_cube_mesh.normals = generate_cube_mesh.normals
    ∧ generate_cube_mesh.uvs = generate_cube_mesh.uvs
    ∧ generate_cube_mesh.indices = generate_cube_mesh.indices :=
  generate_cube_mesh_deterministic generate_cube_mesh generate_cube_mesh rfl rfl

/-- C10: the generated index list has length 36, references only the 24
declared vertices, all 12 triangles (two per face) wind outward with
respect to their face's normal, and all 24 vertex positions have every
coordinate equal to `+0.5` or `-0.5` (origin-centered unit cube). -/
theorem cube_mesh_indices_valid :
    generate_cube_mesh.indices.length = 36
    ∧ (∀ i ∈ generate_cube_mesh.indices, i < 24)
    ∧ generate_cube_mesh.positions.length = 24
    ∧ outwardWinding generate_cube_mesh
    ∧ (∀ p ∈ generate_cube_mesh.positions,
        (p.1 = 0.5 ∨ p.1 = -0.5) ∧ (p.2.1 = 0.5 ∨ p.2.1 = -0.5)
          ∧ (p.2.2 = 0.5 ∨ p.2.2 = -0.5)) := by
  refine ⟨by decide, by decide, by decide, ?_, ?_⟩
  · intro t ht
    interval_cases t <;>
      norm_num [triangleOutward, generate_cube_mesh, dot, cross, vsub]
  · simp [generate_cube_mesh]

/-- C10 (witness): the mem-hypotheses instantiated at index value 0 and
triangle 0. -/
theorem cube_mesh_indices_valid_witness :
    (0 < 24) ∧ triangleOutward generate_cube_mesh 0 :=
  ⟨cube_mesh_indices_valid.2.1 0 (by decide),
   cube_mesh_indices_valid.2.2.2.1 0 (by norm_num)⟩

end VoxelEngine.MainRs
